import Mathlib

/-!
Formal model of the regridding engine in `Packages/cdms2/Lib/gsRegrid.py`
(curvilinear structured-grid regridding, Pletzer/Kindig 2011).

The Python module is a thin driver over the external native `libcf` library:
the Python side normalizes coordinates (`makeCurvilinear`, `getTensorProduct`),
validates arguments (`Regrid.__init__`, `addForbiddenBox`, `apply`), builds
periodicity flag arrays (`getPeriodicityArray`) and forwards buffers to the
native routines.  We embed the Python-level computations faithfully:

* numpy array values are modelled exactly as rationals (`ℚ`); an array is a
  shape together with its flat (C-order, row-major) data list, matching how
  `numpy.outer` and `reshape` treat data;
* fallible Python code is embedded in `Except PyError`, with one constructor
  per distinct raise site, including the non-`CDMSError` exceptions that the
  real interpreter would raise (`TypeError`, `IndexError`, `ValueError`,
  `UnboundLocalError`);
* the native `libcf` entry points are external collaborators: calls whose
  results are not inspected by the Python control flow are modelled as
  succeeding, and `nccf_find_indices_double` is modelled as an arbitrary
  function (universally quantified in the theorems about `_findIndices`).
-/

namespace GsRegrid

/-- Exactly-represented numeric value of an array element (the Python data is
IEEE floating point; the claims under study do not depend on rounding, so we
use exact rationals). -/
abbrev Val := ℚ

/-- One constructor per distinct observable error outcome of the embedded
Python code.  `cdms...` constructors are `CDMSError` raise sites (the module's
own error class); the remaining constructors are exceptions the Python
interpreter itself raises on the corresponding lines of `gsRegrid.py`. -/
inductive PyError
  /-- `makeCurvilinear`: `"funky mixture of axes and curvilinear coords"`. -/
  | cdmsFunkyMix
  /-- `addForbiddenBox`: `len(lo) != self.ndims`. -/
  | cdmsDimLo
  /-- `addForbiddenBox`: `len(hi) != self.ndims`. -/
  | cdmsDimHi
  /-- `apply`: `"supplied src_data have wrong shape"`. -/
  | cdmsSrcShape
  /-- `apply`: `"supplied dst_data have wrong shape"`. -/
  | cdmsDstShape
  /-- `apply`: `"invalid src_data type"`. -/
  | cdmsSrcType
  /-- `apply`: `"invalid dst_data type"`. -/
  | cdmsDstType
  /-- Python `TypeError` (e.g. calling a `str`, or a bad `ctypes` initializer). -/
  | typeErr
  /-- Python `IndexError` (sequence index out of range). -/
  | indexErr
  /-- numpy `ValueError` (`reshape` with mismatched total size). -/
  | valueErr
  /-- Python `UnboundLocalError` (local variable referenced before assignment). -/
  | unboundLocalErr
  deriving DecidableEq

instance {ε α : Type _} [DecidableEq ε] [DecidableEq α] : DecidableEq (Except ε α) := fun x y =>
  match x, y with
  | .ok a, .ok b =>
    if h : a = b then .isTrue (congrArg Except.ok h)
    else .isFalse (fun he => h (Except.ok.inj he))
  | .error a, .error b =>
    if h : a = b then .isTrue (congrArg Except.error h)
    else .isFalse (fun he => h (Except.error.inj he))
  | .ok _, .error _ => .isFalse (fun he => Except.noConfusion he)
  | .error _, .ok _ => .isFalse (fun he => Except.noConfusion he)

/-- A numpy array: its shape and its flat data in C (row-major) order. -/
structure Arr where
  shape : List Nat
  data : List Val
  deriving DecidableEq, Inhabited

/-- `numpy.ones(shape, dtype)` as flat data: `prod shape` ones (for the empty
shape this is the 0-d array holding the single value 1, as in numpy). -/
def onesData (n : Nat) : List Val := List.replicate n 1

/-- `numpy.ones(shape, dtype)`. -/
def npOnes (shape : List Nat) : Arr := ⟨shape, onesData shape.prod⟩

/-- Flat data of `numpy.outer(a, b)`: both inputs are flattened and the result
at flat position `i * len b + j` is `a[i] * b[j]`. -/
def outerData (a b : List Val) : List Val :=
  a.flatMap (fun x => b.map (fun y => x * y))

/-- `numpy.outer(a, b)`: always a 2-D array of shape `(size a, size b)`. -/
def npOuter (a b : Arr) : Arr :=
  ⟨[a.data.length, b.data.length], outerData a.data b.data⟩

/-- `ndarray.reshape(shape)`: reinterprets the flat data under a new shape;
raises `ValueError` when the total sizes disagree. -/
def npReshape (a : Arr) (shape : List Nat) : Except PyError Arr :=
  if a.data.length = shape.prod then .ok ⟨shape, a.data⟩ else .error .valueErr

/-- `getTensorProduct(axis, dim, dims)` from `gsRegrid.py`:
`numpy.outer(numpy.outer(ones(dims[:dim]), axis), ones(dims[dim+1:])).reshape(dims)`. -/
def getTensorProduct (axis : Arr) (dim : Nat) (dims : List Nat) : Except PyError Arr :=
  npReshape (npOuter (npOuter (npOnes (dims.take dim)) axis)
      (npOnes (dims.drop (dim + 1)))) dims

/-!  Multilinear stencil weights.

The weight kernel itself lives in the external native library
(`nccf_compute_regrid_weights` / `nccf_get_regrid_weights`); the Python module
only forwards buffers to it.  Modelled from the spec: each of the `2^N` corner
weights of a stencil with fractional offsets `frac` is the product over the
dimensions of `1 - frac_k` for the lower side and `frac_k` for the upper side
(spec §4.3, standard multilinear interpolation weights). -/

/-- Modelled from the spec: weight of one stencil corner, where `corner` picks
per dimension the lower (`false`, factor `1 - frac_k`) or upper (`true`,
factor `frac_k`) side; the native weight computation is not in the Python
source. -/
def cornerWeight (frac : List Val) (corner : List Bool) : Val :=
  (List.zipWith (fun f u => if u then f else 1 - f) frac corner).prod

/-- All `2^n` lower/upper corner selections of an `n`-dimensional stencil. -/
def corners : Nat → List (List Bool)
  | 0 => [[]]
  | n + 1 => (corners n).map (List.cons false) ++ (corners n).map (List.cons true)

/-- Modelled from the spec: the full list of `2^N` multilinear weights of the
stencil at fractional index offsets `frac` (spec §4.3); this is the weight
vector that `getIndicesAndWeights` reads back from the native table. -/
def stencilWeights (frac : List Val) : List Val :=
  (corners frac.length).map (cornerWeight frac)

theorem corners_length (n : Nat) : (corners n).length = 2 ^ n := by
  induction n with
  | zero => rfl
  | succ n ih =>
    simp [corners, ih, pow_succ]
    ring

theorem cornerWeight_cons_false (f : Val) (fs : List Val) (c : List Bool) :
    cornerWeight (f :: fs) (false :: c) = (1 - f) * cornerWeight fs c := by
  simp [cornerWeight]

theorem cornerWeight_cons_true (f : Val) (fs : List Val) (c : List Bool) :
    cornerWeight (f :: fs) (true :: c) = f * cornerWeight fs c := by
  simp [cornerWeight]

/-- Claim C9: for every fractional index vector, the `2^N` multilinear stencil
weights (each corner's weight being the product over dimensions of `1 - frac_k`
for the lower side and `frac_k` for the upper side) are `2^N` in number and sum
exactly to 1. -/
theorem spec_c9_weight_sum (frac : List Val) :
    (stencilWeights frac).sum = 1 ∧ (stencilWeights frac).length = 2 ^ frac.length := by
  constructor
  · induction frac with
    | nil => simp [stencilWeights, corners, cornerWeight]
    | cons f fs ih =>
      have h1 : (cornerWeight (f :: fs) ∘ List.cons false)
          = fun c => (1 - f) * cornerWeight fs c := by
        funext c
        simp [cornerWeight]
      have h2 : (cornerWeight (f :: fs) ∘ List.cons true)
          = fun c => f * cornerWeight fs c := by
        funext c
        simp [cornerWeight]
      rw [stencilWeights] at ih ⊢
      rw [List.length_cons, corners, List.map_append, List.sum_append,
        List.map_map, List.map_map, h1, h2, List.sum_map_mul_left,
        List.sum_map_mul_left, ih]
      ring
  · simp [stencilWeights, corners_length]

/-!  The coordinate normalizer `makeCurvilinear`.

The Python function makes two passes over its argument list.  The first pass
resolves the per-dimension sizes `dims` (appending, for a descriptor that is
neither 1-D nor fully `ndims`-D, `coord.shape[i - count1DAxes]`, which raises
`IndexError` when that position is out of range; `count1DAxes` counts the 1-D
axes seen so far, so `i - count1DAxes` is never negative).  The second pass
overwrites the entries of the very same list in place (`coords[i] = ...`) and
returns that list.  We model the mutation by threading the list contents: the
returned list is both the function's return value and the content of the
caller's list after the call (in Python they are one and the same object). -/

/-- First pass of `makeCurvilinear`: resolve `dims`.  Arguments: the remaining
descriptors, the current Python loop index `i`, and `count1DAxes` so far. -/
def computeDimsAux (ndims : Nat) : List Arr → Nat → Nat → Except PyError (List Nat)
  | [], _, _ => .ok []
  | c :: rest, i, count =>
    if c.shape.length = 1 then
      (computeDimsAux ndims rest (i + 1) (count + 1)).map
        (fun ds => c.shape.getD 0 0 :: ds)
    else if c.shape.length = ndims then
      (computeDimsAux ndims rest (i + 1) count).map
        (fun ds => c.shape.getD i 0 :: ds)
    else if i - count < c.shape.length then
      (computeDimsAux ndims rest (i + 1) count).map
        (fun ds => c.shape.getD (i - count) 0 :: ds)
    else .error .indexErr

/-- Second pass of `makeCurvilinear`: expand descriptors to full curvilinear
form, threading the partially updated list (`done` holds the entries already
processed, since the Python loop mutates `coords` in place and the special
3-D branch reads `len(coords[0])` from the current list state). -/
def curvAux (ndims : Nat) (dims : List Nat) : List Arr → List Arr → Nat → Except PyError (List Arr)
  | done, [], _ => .ok done
  | done, c :: rest, i =>
    if c.shape.length = ndims then
      curvAux ndims dims (done ++ [c]) rest (i + 1)
    else if c.shape.length = 1 then
      match getTensorProduct c i dims with
      | .ok c2 => curvAux ndims dims (done ++ [c2]) rest (i + 1)
      | .error e => .error e
    else if ndims = 3 ∧ c.shape.length = 2 ∧ 0 < i then
      match npReshape (npOuter (npOnes [((done ++ c :: rest).getD 0 default).shape.getD 0 0]) c)
          dims with
      | .ok c2 => curvAux ndims dims (done ++ [c2]) rest (i + 1)
      | .error e => .error e
    else .error .cdmsFunkyMix

/-- `makeCurvilinear(coords)` from `gsRegrid.py`.  The returned `List Arr` is
the final content of the caller's list (which the Python function mutates in
place and returns); the `List Nat` is the resolved `dims`. -/
def makeCurvilinear (coords : List Arr) : Except PyError (List Arr × List Nat) := do
  let dims ← computeDimsAux coords.length coords 0 0
  let out ← curvAux coords.length dims [] coords 0
  return (out, dims)

/-!  The `Regrid` operator. -/

/-- The Python-observable state of a constructed `Regrid` object (the native
handles `regridid`/`gridid`/`coordid` live in the external library and carry
no Python-visible state beyond success of their creation). -/
structure Regrid where
  ndims : Nat
  src_dims : List Nat
  dst_dims : List Nat
  src_coords : List Arr
  dst_coords : List Arr
  deriving DecidableEq

/-- `Regrid.__init__(src_grid, dst_grid)`.  Faithful to the Python control
flow, including two slips in the source:

* on `len(dst_grid) != self.ndims` and on `self.ndims <= 0` the error-message
  string is *called* instead of `%`-formatted (`"..." (__FILE__, ...)`, the
  `%` operator is missing on lines 166 and 170), so the interpreter raises
  `TypeError: str object is not callable` rather than the intended
  `CDMSError`;
* the local variables `src_dims`/`dst_dims` are assigned only under
  `if self.ndims > 1`, yet read at `self.src_dims[i] = src_dims[i]` for every
  `ndims`, so a 1-dimensional construction raises `UnboundLocalError`.

The native `nccf_def_coord` / `nccf_def_grid` / `nccf_def_regrid` calls are
external collaborators modelled as succeeding; the conversion of coordinate
data to `float64` copies values unchanged (values are exact here). -/
def RegridInit (src_grid dst_grid : List Arr) : Except PyError Regrid := do
  let ndims := src_grid.length
  if dst_grid.length ≠ ndims then throw PyError.typeErr
  if ndims = 0 then throw PyError.typeErr
  if 1 < ndims then
    let s ← makeCurvilinear src_grid
    let d ← makeCurvilinear dst_grid
    return ⟨ndims, s.2, d.2, s.1, d.1⟩
  else
    throw PyError.unboundLocalErr

/-- `Regrid.addForbiddenBox(lo, hi)`.  The two arity checks raise `CDMSError`
with correctly `%`-formatted messages; after both checks pass, the code builds
`(c_int * self.ndims)(tuple(lo))`, which hands the whole tuple to the ctypes
array constructor as its single element initializer, and ctypes raises
`TypeError: an integer is required` — so the native
`nccf_add_regrid_forbidden` call is never reached and no box is ever
registered.  Nothing mutates the operator on any path. -/
def Regrid.addForbiddenBox (st : Regrid) (lo hi : List Int) : Except PyError Unit := do
  if lo.length ≠ st.ndims then throw PyError.cdmsDimLo
  if hi.length ≠ st.ndims then throw PyError.cdmsDimHi
  throw PyError.typeErr

/-- Claim C1 (evaluation of the code at the failing inputs): constructing a
one-dimensional operator from equal-length singleton coordinate lists — which
the claim and spec §4.1 say must succeed — raises `UnboundLocalError`, because
the locals `src_dims`/`dst_dims` are only assigned under `ndims > 1`; the
coordinate-count mismatch and zero-count branches raise `TypeError` (the
message string is called, not `%`-formatted) instead of the intended
`CDMSError`; a two-dimensional construction succeeds with `ndims = 2`. -/
theorem spec_c1_init_bug :
    RegridInit [⟨[2], [0, 1]⟩] [⟨[2], [0, 1]⟩] = .error .unboundLocalErr
    ∧ RegridInit [⟨[2], [0, 1]⟩, ⟨[2], [0, 1]⟩] [⟨[2], [0, 1]⟩] = .error .typeErr
    ∧ RegridInit [] [] = .error .typeErr
    ∧ RegridInit [⟨[2], [1, 2]⟩, ⟨[3], [4, 5, 6]⟩] [⟨[2], [7, 8]⟩, ⟨[3], [9, 10, 11]⟩]
      = .ok ⟨2, [2, 3], [2, 3],
          [⟨[2, 3], [1, 1, 1, 2, 2, 2]⟩, ⟨[2, 3], [4, 5, 6, 4, 5, 6]⟩],
          [⟨[2, 3], [7, 7, 7, 8, 8, 8]⟩, ⟨[2, 3], [9, 10, 11, 9, 10, 11]⟩]⟩ := by
  refine ⟨?_, ?_, ?_, ?_⟩ <;>
    simp [RegridInit, makeCurvilinear, computeDimsAux, curvAux, getTensorProduct,
      npReshape, npOuter, npOnes, onesData, outerData, List.replicate, bind,
      Except.bind, Except.map, pure, Except.pure, throw, throwThe, MonadExceptOf.throw]

/-- Claim C3 (evaluation of the code at the failing input): on a 2-dimensional
operator, `addForbiddenBox` with correctly sized index vectors raises
`TypeError` (the ctypes array constructor receives the whole tuple as one
element) instead of registering the box; the arity-mismatch branches do raise
the intended `CDMSError` before anything is modified. -/
theorem spec_c3_forbidden_box_bug :
    Regrid.addForbiddenBox ⟨2, [2, 3], [2, 3], [], []⟩ [0, 0] [1, 1] = .error .typeErr
    ∧ Regrid.addForbiddenBox ⟨2, [2, 3], [2, 3], [], []⟩ [0] [1, 1] = .error .cdmsDimLo
    ∧ Regrid.addForbiddenBox ⟨2, [2, 3], [2, 3], [], []⟩ [0, 0] [1] = .error .cdmsDimHi := by
  refine ⟨?_, ?_, ?_⟩ <;>
    simp [Regrid.addForbiddenBox, bind, Except.bind, Except.map, pure, Except.pure,
      throw, throwThe, MonadExceptOf.throw]

/-- Claim C2 is false as stated: on the two-axis input
`[x = [1, 2], y = [4, 5, 6]]` the normalizer overwrites both entries of the
caller's list with their 2-D tensor expansions (the Python code assigns
`coords[i] = ...` and returns the same list object), so the caller's list
after the call differs from the list passed in. -/
theorem spec_c2_counterexample :
    makeCurvilinear [⟨[2], [1, 2]⟩, ⟨[3], [4, 5, 6]⟩]
      = .ok ([⟨[2, 3], [1, 1, 1, 2, 2, 2]⟩, ⟨[2, 3], [4, 5, 6, 4, 5, 6]⟩], [2, 3])
    ∧ ([⟨[2, 3], [1, 1, 1, 2, 2, 2]⟩, ⟨[2, 3], [4, 5, 6, 4, 5, 6]⟩] : List Arr)
      ≠ [⟨[2], [1, 2]⟩, ⟨[3], [4, 5, 6]⟩] := by
  constructor
  · simp [makeCurvilinear, computeDimsAux, curvAux, getTensorProduct,
      npReshape, npOuter, npOnes, onesData, outerData, List.replicate, bind,
      Except.bind, Except.map, pure, Except.pure, throw, throwThe, MonadExceptOf.throw]
  · simp

/-- Claim C5 is false as stated: with four descriptors whose last entry is
2-D in a 4-D grid — a descriptor dimensionality outside every accepted
pattern, which the claim says is rejected with a `ShapeMismatch` error — the
size-resolution pass evaluates `coord.shape[i - count1DAxes] = shape[3]` on a
2-tuple and raises `IndexError`, not the `ShapeMismatch` `CDMSError`. -/
theorem spec_c5_counterexample :
    makeCurvilinear
        [⟨[2, 2, 2, 2], List.replicate 16 0⟩, ⟨[2, 2, 2, 2], List.replicate 16 0⟩,
         ⟨[2, 2, 2, 2], List.replicate 16 0⟩, ⟨[2, 2], [0, 0, 0, 0]⟩]
      = .error .indexErr
    ∧ PyError.indexErr ≠ PyError.cdmsFunkyMix := by
  constructor
  · simp [makeCurvilinear, computeDimsAux, curvAux, bind,
      Except.bind, Except.map, pure, Except.pure, throw, throwThe, MonadExceptOf.throw]
  · decide

/-!  Correctness of `getTensorProduct` (claim C4): indexing an N-D array at a
multi-index reads the flat data at the C-order flat index, which is how numpy
lays out `outer(...).reshape(dims)`. -/

/-- C-order (row-major) flat position of multi-index `idx` in shape `dims`. -/
def flatIndex : List Nat → List Nat → Nat
  | _ :: ds, k :: ks => k * ds.prod + flatIndex ds ks
  | _, _ => 0

theorem outerData_length (a b : List Val) :
    (outerData a b).length = a.length * b.length := by
  induction a with
  | nil => simp [outerData]
  | cons x xs ih =>
    show ((b.map fun y => x * y) ++ outerData xs b).length = (xs.length + 1) * b.length
    rw [List.length_append, List.length_map, ih]
    ring

theorem outerData_getD (a b : List Val) (i j : Nat) (hi : i < a.length) (hj : j < b.length) :
    (outerData a b).getD (i * b.length + j) 0 = a.getD i 0 * b.getD j 0 := by
  induction a generalizing i with
  | nil => exact absurd hi (by simp)
  | cons x xs ih =>
    cases i with
    | zero =>
      show ((b.map fun y => x * y) ++ outerData xs b).getD (0 * b.length + j) 0
        = (x :: xs).getD 0 0 * b.getD j 0
      rw [Nat.zero_mul, Nat.zero_add,
        List.getD_append _ _ _ _ (by simpa using hj),
        List.getD_eq_getElem _ _ (by simpa using hj), List.getElem_map,
        List.getD_eq_getElem _ _ hj]
      simp
    | succ n =>
      show ((b.map fun y => x * y) ++ outerData xs b).getD ((n + 1) * b.length + j) 0
        = (x :: xs).getD (n + 1) 0 * b.getD j 0
      have hidx : (n + 1) * b.length + j
          = (b.map fun y => x * y).length + (n * b.length + j) := by
        rw [List.length_map]
        ring
      rw [hidx, List.getD_append_right _ _ _ _ (Nat.le_add_right _ _),
        Nat.add_sub_cancel_left, ih n (Nat.lt_of_succ_lt_succ hi)]
      simp

theorem flatIndex_append (pre : List Nat) (L m : Nat) (post : List Nat)
    (ipre ipost : List Nat) (hlen : ipre.length = pre.length) :
    flatIndex (pre ++ L :: post) (ipre ++ m :: ipost)
      = flatIndex pre ipre * (L * post.prod) + (m * post.prod + flatIndex post ipost) := by
  induction pre generalizing ipre with
  | nil =>
    have h : ipre = [] := List.length_eq_zero.mp (by simpa using hlen)
    subst h
    simp [flatIndex]
  | cons d ds ih =>
    cases ipre with
    | nil => simp at hlen
    | cons k ks =>
      have hlen' : ks.length = ds.length := by simpa using hlen
      show flatIndex (d :: (ds ++ L :: post)) (k :: (ks ++ m :: ipost)) = _
      rw [flatIndex, ih ks hlen', List.prod_append, List.prod_cons, flatIndex]
      ring

theorem flatIndex_lt (dims idx : List Nat) (h : List.Forall₂ (· < ·) idx dims) :
    flatIndex dims idx < dims.prod := by
  induction h with
  | nil => simp [flatIndex]
  | @cons k d ks ds hkd _ ih =>
    show k * ds.prod + flatIndex ds ks < (d :: ds).prod
    rw [List.prod_cons]
    have h1 : k * ds.prod + flatIndex ds ks < (k + 1) * ds.prod := by
      rw [Nat.succ_mul]
      omega
    exact lt_of_lt_of_le h1 (Nat.mul_le_mul_right _ hkd)

theorem drop_succ_append (pre : List Nat) (L : Nat) (post : List Nat) :
    (pre ++ L :: post).drop (pre.length + 1) = post := by
  induction pre with
  | nil => simp
  | cons d ds ih => simp [ih]

/-- Claim C4: for a 1-D axis of length `L` placed at dimension `i` of a grid
whose sizes are `dims` with `dims[i] = L` (written here as
`dims = pre ++ L :: post` with `i = len pre`), `getTensorProduct` succeeds and
returns an array of shape `dims` whose value at every in-range multi-index
`ipre ++ m :: ipost` (read off the flat C-order data, as numpy indexes it)
is `axis[m]`: the axis is broadcast along dimension `i` and replicated
identically along every other dimension. -/
theorem spec_c4_tensor (axis : List Val) (pre post ipre ipost : List Nat) (m : Nat)
    (h1 : List.Forall₂ (· < ·) ipre pre) (h2 : m < axis.length)
    (h3 : List.Forall₂ (· < ·) ipost post) :
    ∃ out : Arr,
      getTensorProduct ⟨[axis.length], axis⟩ pre.length (pre ++ axis.length :: post) = .ok out
      ∧ out.shape = pre ++ axis.length :: post
      ∧ out.data.length = (pre ++ axis.length :: post).prod
      ∧ out.data.getD (flatIndex (pre ++ axis.length :: post) (ipre ++ m :: ipost)) 0
        = axis.getD m 0 := by
  have htake : (pre ++ axis.length :: post).take pre.length = pre := List.take_left pre _
  have hdrop : (pre ++ axis.length :: post).drop (pre.length + 1) = post :=
    drop_succ_append pre _ post
  have hprodsplit : (pre ++ axis.length :: post).prod
      = pre.prod * (axis.length * post.prod) := by
    rw [List.prod_append, List.prod_cons]
  have hlen1 : (outerData (onesData pre.prod) axis).length = pre.prod * axis.length := by
    rw [outerData_length, onesData, List.length_replicate]
  have hlenA : (outerData (outerData (onesData pre.prod) axis) (onesData post.prod)).length
      = pre.prod * axis.length * post.prod := by
    rw [outerData_length, hlen1, onesData, List.length_replicate]
  have hok : getTensorProduct ⟨[axis.length], axis⟩ pre.length (pre ++ axis.length :: post)
      = .ok ⟨pre ++ axis.length :: post,
          outerData (outerData (onesData pre.prod) axis) (onesData post.prod)⟩ := by
    rw [getTensorProduct, htake, hdrop]
    show npReshape ⟨_, outerData (outerData (onesData pre.prod) axis) (onesData post.prod)⟩ _
      = _
    rw [npReshape, if_pos]
    rw [hlenA, hprodsplit]
    ring
  refine ⟨_, hok, rfl, ?_, ?_⟩
  · rw [hlenA, hprodsplit]
    ring
  · have hF : flatIndex pre ipre < pre.prod := flatIndex_lt pre ipre h1
    have hf2 : flatIndex post ipost < post.prod := flatIndex_lt post ipost h3
    have hidx : flatIndex (pre ++ axis.length :: post) (ipre ++ m :: ipost)
        = (flatIndex pre ipre * axis.length + m) * (onesData post.prod).length
          + flatIndex post ipost := by
      rw [flatIndex_append pre axis.length m post ipre ipost
        (List.Forall₂.length_eq h1), onesData, List.length_replicate]
      ring
    rw [hidx, outerData_getD _ _ _ _ ?_ ?_]
    · rw [show flatIndex pre ipre * axis.length + m
          = flatIndex pre ipre * axis.length + m by rfl]
      rw [outerData_getD _ _ _ _ ?_ h2]
      · have hone1 : (onesData pre.prod).getD (flatIndex pre ipre) 0 = 1 := by
          rw [onesData, List.getD_eq_getElem _ _ (by simpa using hF),
            List.getElem_replicate]
        have hone2 : (onesData post.prod).getD (flatIndex post ipost) 0 = 1 := by
          rw [onesData, List.getD_eq_getElem _ _ (by simpa using hf2),
            List.getElem_replicate]
        rw [hone1, hone2]
        ring
      · rw [onesData, List.length_replicate]
        exact hF
    · rw [hlen1]
      calc flatIndex pre ipre * axis.length + m
          < flatIndex pre ipre * axis.length + axis.length := by omega
        _ = (flatIndex pre ipre + 1) * axis.length := by ring
        _ ≤ pre.prod * axis.length := Nat.mul_le_mul_right _ hF
    · rw [onesData, List.length_replicate]
      exact hf2

/-- Claim C4 witness: axis `[10, 20, 30]` at dimension 1 of a `[2, 3, 2]`
grid, read at multi-index `(1, 2, 0)`, gives `30 = axis[2]`. -/
theorem spec_c4_witness :
    ∃ out : Arr,
      getTensorProduct ⟨[3], [10, 20, 30]⟩ 1 [2, 3, 2] = .ok out
      ∧ out.shape = [2, 3, 2]
      ∧ out.data.length = 12
      ∧ out.data.getD (flatIndex [2, 3, 2] [1, 2, 0]) 0 = 30 := by
  have h := spec_c4_tensor [10, 20, 30] [2] [2] [1] [0] 2
    (List.Forall₂.cons (by decide) List.Forall₂.nil) (by decide)
    (List.Forall₂.cons (by decide) List.Forall₂.nil)
  simpa using h

/-!  `Regrid.apply`: shape validation and dtype dispatch.  The weighted
interpolation itself (`nccf_apply_regrid`) and the data-object bookkeeping
(`nccf_def_data` / `nccf_set_data_*` / `nccf_free_data`) are native external
collaborators modelled as succeeding. -/

/-- numpy dtypes that can reach `Regrid.apply`. -/
inductive DType
  | float64 | float32 | int32 | int64 | int16 | float16
  deriving DecidableEq

/-- The dtype chain of `Regrid.apply`: `float64`, `float32` and `int32` each
have a `nccf_set_data_*` branch; anything else falls through to the
`"invalid ... type"` `CDMSError`. -/
def DType.isSupported : DType → Bool
  | .float64 => true
  | .float32 => true
  | .int32 => true
  | _ => false

/-- A data field handed to `Regrid.apply`: its numpy shape and dtype (the
element values never influence the Python-level control flow). -/
structure Field where
  shape : List Nat
  dtype : DType
  deriving DecidableEq

/-- The shape test of `Regrid.apply`:
`reduce(operator.iand, [data.shape[i] == dims[i] for i in range(ndims)])`.
Building the comprehension raises `IndexError` as soon as `i` reaches
`len(data.shape)`, i.e. exactly when the field has fewer than `ndims` axes;
`reduce` over the empty list (`ndims == 0`) would raise `TypeError`; otherwise
the result is the conjunction over the first `ndims` axes only — trailing
axes of `data.shape` beyond `ndims` are never inspected. -/
def shapeOK (ndims : Nat) (dims shape : List Nat) : Except PyError Bool :=
  if ndims = 0 then .error .typeErr
  else if shape.length < ndims then .error .indexErr
  else .ok (decide (∀ i, i < ndims → shape.getD i 0 = dims.getD i 0))

/-- `Regrid.apply(src_data, dst_data)`: the two shape checks, then the dtype
dispatch for each field; the native interpolation call is reached only when
all four checks pass. -/
def Regrid.apply (st : Regrid) (src dst : Field) : Except PyError Unit := do
  let ok1 ← shapeOK st.ndims st.src_dims src.shape
  if ok1 = false then throw PyError.cdmsSrcShape
  let ok2 ← shapeOK st.ndims st.dst_dims dst.shape
  if ok2 = false then throw PyError.cdmsDstShape
  if src.dtype.isSupported = false then throw PyError.cdmsSrcType
  if dst.dtype.isSupported = false then throw PyError.cdmsDstType
  return ()

theorem shapeOK_eval (ndims : Nat) (dims shape : List Nat) (h0 : ndims ≠ 0)
    (h1 : ndims ≤ shape.length) :
    shapeOK ndims dims shape
      = .ok (decide (∀ i, i < ndims → shape.getD i 0 = dims.getD i 0)) := by
  rw [shapeOK, if_neg h0, if_neg (by omega)]

theorem apply_eval (st : Regrid) (src dst : Field) (b1 b2 : Bool)
    (hs : shapeOK st.ndims st.src_dims src.shape = .ok b1)
    (hd : shapeOK st.ndims st.dst_dims dst.shape = .ok b2) :
    st.apply src dst
      = (if b1 = false then .error PyError.cdmsSrcShape
         else if b2 = false then .error PyError.cdmsDstShape
         else if src.dtype.isSupported = false then .error PyError.cdmsSrcType
         else if dst.dtype.isSupported = false then .error PyError.cdmsDstType
         else .ok ()) := by
  cases b1 <;> cases b2 <;>
    simp [Regrid.apply, hs, hd, bind, Except.bind, pure, Except.pure,
      throw, throwThe, MonadExceptOf.throw]

/-- Claim C6 is false as stated: on a 1-dimensional operator with
`src_dims = [4]`, a source field of shape `(4, 7)` — a different shape with a
different number of array dimensions — passes the check (only `shape[0]` is
compared) and `apply` proceeds without raising `ShapeMismatch`. -/
theorem spec_c6_counterexample :
    Regrid.apply ⟨1, [4], [3], [], []⟩ ⟨[4, 7], .float64⟩ ⟨[3], .float64⟩ = .ok ()
    ∧ ([4, 7] : List Nat) ≠ [4] := by
  constructor
  · simp [Regrid.apply, shapeOK, bind, Except.bind, Except.map, pure, Except.pure,
      throw, throwThe, MonadExceptOf.throw, DType.isSupported]
  · simp

/-- Claim C6 amended: for fields with at least `ndims` axes, `apply` raises a
`ShapeMismatch` `CDMSError` exactly when one of the first `ndims` extents
disagrees with the corresponding grid size (the source field is checked
first); axes beyond the first `ndims` are never compared, and a field with
fewer than `ndims` axes raises `IndexError` instead (see the
counterexample).  The checks precede every other step, so when one raises,
the interpolation is not performed. -/
theorem spec_c6_amended (st : Regrid) (src dst : Field)
    (h1 : st.ndims ≤ src.shape.length) (h2 : st.ndims ≤ dst.shape.length) :
    (st.apply src dst = .error PyError.cdmsSrcShape
        ∨ st.apply src dst = .error PyError.cdmsDstShape)
      ↔ ((∃ i, i < st.ndims ∧ src.shape.getD i 0 ≠ st.src_dims.getD i 0)
        ∨ (∃ i, i < st.ndims ∧ dst.shape.getD i 0 ≠ st.dst_dims.getD i 0)) := by
  by_cases h0 : st.ndims = 0
  · simp [Regrid.apply, shapeOK, h0, bind, Except.bind, throw, throwThe,
      MonadExceptOf.throw]
  · have hs := shapeOK_eval st.ndims st.src_dims src.shape h0 h1
    have hd := shapeOK_eval st.ndims st.dst_dims dst.shape h0 h2
    have he := apply_eval st src dst _ _ hs hd
    by_cases hP : ∀ i, i < st.ndims → src.shape.getD i 0 = st.src_dims.getD i 0
    · by_cases hQ : ∀ i, i < st.ndims → dst.shape.getD i 0 = st.dst_dims.getD i 0
      · rw [decide_eq_true hP, decide_eq_true hQ] at he
        simp only [Bool.true_eq_false, if_false] at he
        have lhsFalse : ¬ (st.apply src dst = .error PyError.cdmsSrcShape
            ∨ st.apply src dst = .error PyError.cdmsDstShape) := by
          rw [he]
          cases ha : src.dtype.isSupported <;> cases hb : dst.dtype.isSupported <;>
            simp [ha, hb]
        have rhsFalse : ¬ ((∃ i, i < st.ndims ∧ src.shape.getD i 0 ≠ st.src_dims.getD i 0)
            ∨ (∃ i, i < st.ndims ∧ dst.shape.getD i 0 ≠ st.dst_dims.getD i 0)) := by
          rintro (⟨i, hi, hne⟩ | ⟨i, hi, hne⟩)
          · exact hne (hP i hi)
          · exact hne (hQ i hi)
        exact iff_of_false lhsFalse rhsFalse
      · rw [decide_eq_true hP, decide_eq_false hQ] at he
        simp only [Bool.true_eq_false, if_false, if_pos] at he
        push_neg at hQ
        obtain ⟨i, hi, hne⟩ := hQ
        exact iff_of_true (Or.inr he) (Or.inr ⟨i, hi, hne⟩)
    · rw [decide_eq_false hP] at he
      simp only [if_pos] at he
      push_neg at hP
      obtain ⟨i, hi, hne⟩ := hP
      exact iff_of_true (Or.inl he) (Or.inl ⟨i, hi, hne⟩)

/-- Claim C6 amended, witness: a 1-dimensional operator with `src_dims = [4]`
and a source field of shape `(5,)` — the mismatch in the first extent is
reported as a `ShapeMismatch` error. -/
theorem spec_c6_witness :
    (Regrid.apply ⟨1, [4], [3], [], []⟩ ⟨[5], .float64⟩ ⟨[3], .float64⟩
        = .error PyError.cdmsSrcShape
      ∨ Regrid.apply ⟨1, [4], [3], [], []⟩ ⟨[5], .float64⟩ ⟨[3], .float64⟩
        = .error PyError.cdmsDstShape)
      ↔ ((∃ i, i < 1 ∧ ([5] : List Nat).getD i 0 ≠ ([4] : List Nat).getD i 0)
        ∨ (∃ i, i < 1 ∧ ([3] : List Nat).getD i 0 ≠ ([3] : List Nat).getD i 0)) :=
  spec_c6_amended ⟨1, [4], [3], [], []⟩ ⟨[5], .float64⟩ ⟨[3], .float64⟩
    (by decide) (by decide)

/-- Claim C7: on correctly shaped fields (shapes with at least `ndims` axes
whose first `ndims` extents match the grids — the shape test `apply`
actually performs), `apply` raises an `UnsupportedType` `CDMSError` exactly
when a field's dtype is outside `{float64, float32, int32}`, and proceeds
to a successful return for supported dtypes. -/
theorem spec_c7_types (st : Regrid) (src dst : Field) (h0 : st.ndims ≠ 0)
    (h1 : st.ndims ≤ src.shape.length) (h2 : st.ndims ≤ dst.shape.length)
    (hP : ∀ i, i < st.ndims → src.shape.getD i 0 = st.src_dims.getD i 0)
    (hQ : ∀ i, i < st.ndims → dst.shape.getD i 0 = st.dst_dims.getD i 0) :
    ((st.apply src dst = .error PyError.cdmsSrcType
        ∨ st.apply src dst = .error PyError.cdmsDstType)
      ↔ (src.dtype.isSupported = false ∨ dst.dtype.isSupported = false))
    ∧ (src.dtype.isSupported = true → dst.dtype.isSupported = true →
        st.apply src dst = .ok ()) := by
  have hs := shapeOK_eval st.ndims st.src_dims src.shape h0 h1
  have hd := shapeOK_eval st.ndims st.dst_dims dst.shape h0 h2
  have he := apply_eval st src dst _ _ hs hd
  rw [decide_eq_true hP, decide_eq_true hQ] at he
  simp only [Bool.true_eq_false, if_false] at he
  constructor
  · rw [he]
    cases ha : src.dtype.isSupported <;> cases hb : dst.dtype.isSupported <;>
      simp [ha, hb]
  · intro ha hb
    rw [he, if_neg (by simp [ha]), if_neg (by simp [hb])]

/-- Claim C7 witness: on a 1-dimensional operator with matching shapes, an
`int16` source field is rejected as an unsupported type, and `float64`
fields go through. -/
theorem spec_c7_witness :
    ((Regrid.apply ⟨1, [4], [3], [], []⟩ ⟨[4], .int16⟩ ⟨[3], .float64⟩
        = .error PyError.cdmsSrcType
      ∨ Regrid.apply ⟨1, [4], [3], [], []⟩ ⟨[4], .int16⟩ ⟨[3], .float64⟩
        = .error PyError.cdmsDstType)
      ↔ (DType.isSupported .int16 = false ∨ DType.isSupported .float64 = false))
    ∧ (DType.isSupported .int16 = true → DType.isSupported .float64 = true →
        Regrid.apply ⟨1, [4], [3], [], []⟩ ⟨[4], .int16⟩ ⟨[3], .float64⟩ = .ok ()) :=
  spec_c7_types ⟨1, [4], [3], [], []⟩ ⟨[4], .int16⟩ ⟨[3], .float64⟩
    (by decide) (by decide) (by decide) (by decide) (by decide)

/-!  Periodicity flags and the index locator driver. -/

/-- The write loop of `getPeriodicityArray`:
`for i in range(len(is_periodic)): if is_periodic[i]: res[i] = 1`.
A `True` at a position at or beyond `ndims` makes the ctypes array assignment
`res[i] = 1` raise `IndexError`; `False` entries are skipped without any
bounds check. -/
def setFlags : List Int → List Bool → Nat → Except PyError (List Int)
  | res, [], _ => .ok res
  | res, b :: rest, i =>
    if b then
      if i < res.length then setFlags (res.set i 1) rest (i + 1)
      else .error .indexErr
    else setFlags res rest (i + 1)

/-- `getPeriodicityArray(ndims, is_periodic)`: a ctypes `c_int * ndims` array
initialized to zeros, then the write loop over the Python list. -/
def getPeriodicityArray (ndims : Nat) (is_periodic : List Bool) : Except PyError (List Int) :=
  setFlags (List.replicate ndims 0) is_periodic 0

/-- `Regrid.computeWeights(nitermax, tolpos, is_periodic)`: builds the
periodicity array and forwards the budget, tolerance and flags to the native
`nccf_compute_regrid_weights` (external collaborator modelled as
succeeding). -/
def Regrid.computeWeights (st : Regrid) (nitermax : Int) (tolpos : Val)
    (is_periodic : List Bool) : Except PyError Unit := do
  let _ ← getPeriodicityArray st.ndims is_periodic
  return ()

theorem setFlags_spec (l : List Bool) : ∀ (res : List Int) (i : Nat),
    i + l.length ≤ res.length →
    ∃ r, setFlags res l i = .ok r ∧ r.length = res.length ∧
      ∀ j, r.getD j 0
        = if i ≤ j ∧ j - i < l.length ∧ l.getD (j - i) false = true then 1
          else res.getD j 0 := by
  induction l with
  | nil =>
    intro res i _
    refine ⟨res, rfl, rfl, ?_⟩
    intro j
    rw [if_neg]
    rintro ⟨_, hlt, _⟩
    simp at hlt
  | cons b rest ih =>
    intro res i hlen
    cases b with
    | true =>
      have hi : i < res.length := by
        simp at hlen
        omega
      have hlen' : (i + 1) + rest.length ≤ (res.set i 1).length := by
        simp at hlen ⊢
        omega
      obtain ⟨r, hr, hrlen, hval⟩ := ih (res.set i 1) (i + 1) hlen'
      refine ⟨r, ?_, by simpa using hrlen, ?_⟩
      · rw [setFlags, if_pos rfl, if_pos hi]
        exact hr
      · intro j
        rw [hval j]
        by_cases hij : j = i
        · subst hij
          rw [if_neg (by omega), if_pos ⟨le_refl j, by simp, by simp⟩]
          rw [List.getD_eq_getElem _ _ (by simpa using hi), List.getElem_set_self]
        · by_cases hlt : j < i
          · rw [if_neg (by omega), if_neg (by omega)]
            rcases Nat.lt_or_ge j (res.length) with hj | hj
            · rw [List.getD_eq_getElem _ _ (by simpa using hj),
                List.getD_eq_getElem _ _ hj, List.getElem_set_ne (by omega)]
            · rw [List.getD_eq_default _ _ (by simpa using hj),
                List.getD_eq_default _ _ hj]
          · have hgt : i < j := by omega
            have harith1 : i + 1 ≤ j ↔ i ≤ j ∧ 0 < j - i := by omega
            by_cases hcond : i + 1 ≤ j ∧ j - (i + 1) < rest.length
                ∧ rest.getD (j - (i + 1)) false = true
            · rw [if_pos hcond, if_pos]
              refine ⟨by omega, by simp; omega, ?_⟩
              have : j - i = (j - (i + 1)) + 1 := by omega
              rw [this, List.getD_cons_succ]
              exact hcond.2.2
            · rw [if_neg hcond, if_neg]
              · rcases Nat.lt_or_ge j (res.length) with hj | hj
                · rw [List.getD_eq_getElem _ _ (by simpa using hj),
                    List.getD_eq_getElem _ _ hj, List.getElem_set_ne (by omega)]
                · rw [List.getD_eq_default _ _ (by simpa using hj),
                    List.getD_eq_default _ _ hj]
              · rintro ⟨hle, hsub, hget⟩
                apply hcond
                have : j - i = (j - (i + 1)) + 1 := by omega
                rw [this, List.getD_cons_succ] at hget
                refine ⟨by omega, by simp at hsub; omega, hget⟩
    | false =>
      have hlen' : (i + 1) + rest.length ≤ res.length := by
        simp at hlen
        omega
      obtain ⟨r, hr, hrlen, hval⟩ := ih res (i + 1) hlen'
      refine ⟨r, ?_, hrlen, ?_⟩
      · rw [setFlags, if_neg (by simp)]
        exact hr
      · intro j
        rw [hval j]
        by_cases hij : j = i
        · subst hij
          rw [if_neg (by omega), if_neg]
          rintro ⟨_, _, hget⟩
          simp at hget
        · by_cases hcond : i + 1 ≤ j ∧ j - (i + 1) < rest.length
              ∧ rest.getD (j - (i + 1)) false = true
          · rw [if_pos hcond, if_pos]
            refine ⟨by omega, by simp; omega, ?_⟩
            have : j - i = (j - (i + 1)) + 1 := by omega
            rw [this, List.getD_cons_succ]
            exact hcond.2.2
          · rw [if_neg hcond, if_neg]
            rintro ⟨hle, hsub, hget⟩
            apply hcond
            have hgt : i < j := by omega
            have : j - i = (j - (i + 1)) + 1 := by omega
            rw [this, List.getD_cons_succ] at hget
            refine ⟨by omega, by simp at hsub; omega, hget⟩

theorem getPeriodicityArray_spec (ndims : Nat) (l : List Bool) (h : l.length ≤ ndims) :
    ∃ r, getPeriodicityArray ndims l = .ok r ∧ r.length = ndims ∧
      ∀ i, i < ndims →
        r.getD i 0 = if i < l.length ∧ l.getD i false = true then 1 else 0 := by
  obtain ⟨r, hr, hrlen, hval⟩ := setFlags_spec l (List.replicate ndims 0) 0
    (by simpa using h)
  refine ⟨r, hr, by simpa using hrlen, ?_⟩
  intro i hi
  have := hval i
  simp only [Nat.zero_le, Nat.sub_zero, true_and] at this
  rw [this]
  by_cases hc : i < l.length ∧ l.getD i false = true
  · rw [if_pos hc, if_pos hc]
  · rw [if_neg hc, if_neg hc, List.getD_eq_getElem _ _ (by simpa using hi),
      List.getElem_replicate]

/-- Claim C10: for a periodicity list of length at most `ndims` (including
the empty `computeWeights` default), `getPeriodicityArray` succeeds and
produces an `ndims`-vector whose `i`-th entry is 1 exactly when `i` is within
the list and the `i`-th element is `True`, and 0 for every axis beyond the
list's length. -/
theorem spec_c10_periodicity (ndims : Nat) (l : List Bool) (h : l.length ≤ ndims) :
    ∃ r, getPeriodicityArray ndims l = .ok r ∧ r.length = ndims ∧
      ∀ i, i < ndims →
        r.getD i 0 = if i < l.length ∧ l.getD i false = true then 1 else 0 :=
  getPeriodicityArray_spec ndims l h

/-- Claim C10 witness: `ndims = 3` with the short list `[False, True]` gives
the flag vector `[0, 1, 0]` — the axis beyond the list is non-periodic and
the call does not fail. -/
theorem spec_c10_witness :
    ∃ r, getPeriodicityArray 3 [false, true] = .ok r ∧ r.length = 3 ∧
      ∀ i, i < 3 →
        r.getD i 0 = if i < [false, true].length ∧ [false, true].getD i false = true
          then 1 else 0 :=
  spec_c10_periodicity 3 [false, true] (by decide)

/-- Abstract behaviour of the external native routine
`nccf_find_indices_double`: a function of the grid rank, dims, source
coordinate arrays, periodicity flags, target position, iteration budget,
tolerance and the initial content of the result buffer, producing the
returned status together with the final content of the result buffer, the
final iteration count and the final achieved tolerance.  The library is an
external collaborator, so theorems quantify over every such behaviour. -/
def NativeFind : Type :=
  Nat → List Nat → List Arr → List Int → List Val → Int → Val → List Val →
    Int × List Val × Int × Val

/-- `Regrid._findIndices(targetPos, nitermax, tolpos, dindicesGuess,
is_periodic)`.  The code copies the guess (`res = copy.copy(dindicesGuess)`)
and hands the native routine the copy's buffer, so the caller's guess array
is never written; we model this by returning, alongside the result triple,
the content of the caller's guess array after the call (the second
component), which is the unchanged input.  The returned status of the native
call is ignored — the `catchError` line is commented out in the source — so
no outcome of the native routine can raise. -/
def findIndices (native : NativeFind) (st : Regrid) (targetPos : List Val)
    (nitermax : Int) (tolpos : Val) (dindicesGuess : List Val)
    (is_periodic : List Bool) :
    Except PyError ((List Val × Int × Val) × List Val) := do
  let isPer ← getPeriodicityArray st.ndims is_periodic
  let res := dindicesGuess
  let out := native st.ndims st.src_dims st.src_coords isPer targetPos nitermax tolpos res
  return ((out.2.1, out.2.2.1, out.2.2.2), dindicesGuess)

/-- Claim C8: for every behaviour of the native locator (every status,
including non-convergence and error statuses — the status check in the
Python source is commented out) and every input with periodicity flags
within the contract's `N`-vector domain (length at most `ndims`; the code's
default is `[]`), `_findIndices` raises nothing and returns the triple
`(fractionalIndex, iterationsUsed, achievedTolerance)`, and the caller's
guess array still holds its original content after the call. -/
theorem spec_c8_find_indices (native : NativeFind) (st : Regrid)
    (targetPos : List Val) (nitermax : Int) (tolpos : Val)
    (dindicesGuess : List Val) (is_periodic : List Bool)
    (h : is_periodic.length ≤ st.ndims) :
    ∃ frac niter atol,
      findIndices native st targetPos nitermax tolpos dindicesGuess is_periodic
        = .ok ((frac, niter, atol), dindicesGuess) := by
  obtain ⟨r, hr, -, -⟩ := getPeriodicityArray_spec st.ndims is_periodic h
  refine ⟨(native st.ndims st.src_dims st.src_coords r targetPos nitermax tolpos
      dindicesGuess).2.1,
    (native st.ndims st.src_dims st.src_coords r targetPos nitermax tolpos
      dindicesGuess).2.2.1,
    (native st.ndims st.src_dims st.src_coords r targetPos nitermax tolpos
      dindicesGuess).2.2.2, ?_⟩
  rw [findIndices]
  simp [hr, bind, Except.bind, pure, Except.pure]

/-- Claim C8 witness: a concrete 2-D operator and a native behaviour that
returns a nonzero (error) status and overwrites the result buffer; the call
still returns the triple and the guess list unchanged. -/
theorem spec_c8_witness :
    ∃ frac niter atol,
      findIndices (fun _ _ _ _ _ _ _ _ => (1, [(9 : Val), 9], 7, 5))
          ⟨2, [2, 3], [2, 3], [], []⟩ [0, 0] 20 1 [1, 1] [true]
        = .ok ((frac, niter, atol), [1, 1]) :=
  spec_c8_find_indices (fun _ _ _ _ _ _ _ _ => (1, [(9 : Val), 9], 7, 5))
    ⟨2, [2, 3], [2, 3], [], []⟩ [0, 0] 20 1 [1, 1] [true] (by decide)

/-!  Characterization lemmas for `makeCurvilinear`, shared by the theorems
about claims on the normalizer. -/

theorem makeCurvilinear_ok_elim (coords out : List Arr) (dims : List Nat)
    (h : makeCurvilinear coords = .ok (out, dims)) :
    computeDimsAux coords.length coords 0 0 = .ok dims
    ∧ curvAux coords.length dims [] coords 0 = .ok out := by
  rw [makeCurvilinear] at h
  cases h1 : computeDimsAux coords.length coords 0 0 with
  | error e =>
    rw [h1] at h
    simp [bind, Except.bind] at h
  | ok ds =>
    rw [h1] at h
    simp only [bind, Except.bind] at h
    cases h2 : curvAux coords.length ds [] coords 0 with
    | error e =>
      rw [h2] at h
      simp at h
    | ok o =>
      rw [h2] at h
      simp only [pure, Except.pure, Except.ok.injEq, Prod.mk.injEq] at h
      obtain ⟨ho, hd⟩ := h
      subst ho
      subst hd
      exact ⟨rfl, h2⟩

theorem makeCurvilinear_ok_intro (coords out : List Arr) (dims : List Nat)
    (h1 : computeDimsAux coords.length coords 0 0 = .ok dims)
    (h2 : curvAux coords.length dims [] coords 0 = .ok out) :
    makeCurvilinear coords = .ok (out, dims) := by
  rw [makeCurvilinear]
  simp [h1, h2, bind, Except.bind, pure, Except.pure]

theorem computeDimsAux_length (ndims : Nat) (l : List Arr) :
    ∀ (i count : Nat) (ds : List Nat),
      computeDimsAux ndims l i count = .ok ds → ds.length = l.length := by
  induction l with
  | nil =>
    intro i count ds h
    rw [computeDimsAux] at h
    rw [← Except.ok.inj h]
    rfl
  | cons c rest ih =>
    intro i count ds h
    rw [computeDimsAux] at h
    split at h
    · cases he : computeDimsAux ndims rest (i + 1) (count + 1) with
      | error e =>
        rw [he] at h
        simp [Except.map] at h
      | ok ds' =>
        rw [he] at h
        simp only [Except.map, Except.ok.injEq] at h
        rw [← h]
        simp [ih _ _ _ he]
    · split at h
      · cases he : computeDimsAux ndims rest (i + 1) count with
        | error e =>
          rw [he] at h
          simp [Except.map] at h
        | ok ds' =>
          rw [he] at h
          simp only [Except.map, Except.ok.injEq] at h
          rw [← h]
          simp [ih _ _ _ he]
      · split at h
        · cases he : computeDimsAux ndims rest (i + 1) count with
          | error e =>
            rw [he] at h
            simp [Except.map] at h
          | ok ds' =>
            rw [he] at h
            simp only [Except.map, Except.ok.injEq] at h
            rw [← h]
            simp [ih _ _ _ he]
        · exact absurd h (by simp)

theorem getTensorProduct_ok_shape (c : Arr) (i : Nat) (dims : List Nat) (c2 : Arr)
    (h : getTensorProduct c i dims = .ok c2) : c2.shape = dims := by
  rw [getTensorProduct, npReshape] at h
  split at h
  · rw [← Except.ok.inj h]
  · exact absurd h (by simp)

theorem npReshape_ok_shape (a : Arr) (dims : List Nat) (c2 : Arr)
    (h : npReshape a dims = .ok c2) : c2.shape = dims := by
  rw [npReshape] at h
  split at h
  · rw [← Except.ok.inj h]
  · exact absurd h (by simp)

/-- Every entry of a successful second-pass result was either already in the
processed prefix, or was kept because it is fully `ndims`-dimensional, or was
produced by a reshape to `dims`. -/
theorem curvAux_ok_mem (ndims : Nat) (dims : List Nat) (rest : List Arr) :
    ∀ (done : List Arr) (i : Nat) (out : List Arr),
      curvAux ndims dims done rest i = .ok out →
      ∀ a ∈ out, a ∈ done ∨ a.shape.length = ndims ∨ a.shape = dims := by
  induction rest with
  | nil =>
    intro done i out h a ha
    rw [curvAux] at h
    rw [← Except.ok.inj h] at ha
    exact Or.inl ha
  | cons c rest ih =>
    intro done i out h a ha
    rw [curvAux] at h
    split at h
    case isTrue hc =>
      rcases ih _ _ _ h a ha with hmem | h2 | h3
      · rcases List.mem_append.mp hmem with h4 | h4
        · exact Or.inl h4
        · exact Or.inr (Or.inl (List.mem_singleton.mp h4 ▸ hc))
      · exact Or.inr (Or.inl h2)
      · exact Or.inr (Or.inr h3)
    case isFalse =>
      split at h
      case isTrue hc1 =>
        cases hg : getTensorProduct c i dims with
        | error e =>
          rw [hg] at h
          exact absurd h (by simp)
        | ok c2 =>
          rw [hg] at h
          rcases ih _ _ _ h a ha with hmem | h2 | h3
          · rcases List.mem_append.mp hmem with h4 | h4
            · exact Or.inl h4
            · exact Or.inr (Or.inr
                (List.mem_singleton.mp h4 ▸ getTensorProduct_ok_shape c i dims c2 hg))
          · exact Or.inr (Or.inl h2)
          · exact Or.inr (Or.inr h3)
      case isFalse =>
        split at h
        case isTrue =>
          cases hg : npReshape (npOuter
              (npOnes [((done ++ c :: rest).getD 0 default).shape.getD 0 0]) c) dims with
          | error e =>
            rw [hg] at h
            exact absurd h (by simp)
          | ok c2 =>
            rw [hg] at h
            rcases ih _ _ _ h a ha with hmem | h2 | h3
            · rcases List.mem_append.mp hmem with h4 | h4
              · exact Or.inl h4
              · exact Or.inr (Or.inr
                  (List.mem_singleton.mp h4 ▸ npReshape_ok_shape _ dims c2 hg))
            · exact Or.inr (Or.inl h2)
            · exact Or.inr (Or.inr h3)
        case isFalse =>
          exact absurd h (by simp)

/-- Claim C2 amended: the normalizer never mutates the descriptor arrays it
is given, but it is not list-pure — it overwrites the axis entries of the
caller's list in place with their N-D expansions and returns that same list.
Consequently, whenever an accepted input of at least two dimensions contains
a 1-D axis descriptor, the caller's list after the call (the returned list)
differs from the list passed in. -/
theorem spec_c2_amended (coords out : List Arr) (dims : List Nat) (i : Nat)
    (hi : i < coords.length)
    (hok : makeCurvilinear coords = .ok (out, dims))
    (hn : 2 ≤ coords.length)
    (hax : (coords.get ⟨i, hi⟩).shape.length = 1) :
    out ≠ coords := by
  obtain ⟨hdims, hcurv⟩ := makeCurvilinear_ok_elim _ _ _ hok
  have hdlen : dims.length = coords.length := computeDimsAux_length _ _ _ _ _ hdims
  intro heq
  have hmem : coords.get ⟨i, hi⟩ ∈ out := heq ▸ List.get_mem coords i hi
  rcases curvAux_ok_mem _ _ _ _ _ _ hcurv _ hmem with h1 | h2 | h3
  · exact absurd h1 (List.not_mem_nil _)
  · rw [hax] at h2
    omega
  · have := congrArg List.length h3
    rw [hax, hdlen] at this
    omega

/-- Claim C2 amended, witness: the two-axis input `[x = [1, 2], y = [3, 4]]`
is accepted, and the caller's list after the call (holding the two 2-D
expansions) differs from the input list. -/
theorem spec_c2_witness :
    ([⟨[2, 2], [1, 1, 2, 2]⟩, ⟨[2, 2], [3, 4, 3, 4]⟩] : List Arr)
      ≠ [⟨[2], [1, 2]⟩, ⟨[2], [3, 4]⟩] :=
  spec_c2_amended [⟨[2], [1, 2]⟩, ⟨[2], [3, 4]⟩]
    [⟨[2, 2], [1, 1, 2, 2]⟩, ⟨[2, 2], [3, 4, 3, 4]⟩] [2, 2] 0 (by decide)
    (by simp [makeCurvilinear, computeDimsAux, curvAux, getTensorProduct,
      npReshape, npOuter, npOnes, onesData, outerData, List.replicate, bind,
      Except.bind, Except.map, pure, Except.pure, throw, throwThe,
      MonadExceptOf.throw])
    (by decide) (by decide)

/-!  Accepted and rejected descriptor patterns of the normalizer (claim C5). -/

/-- Rank (number of dimensions) of the `i`-th descriptor. -/
def arrND (coords : List Arr) (i : Nat) : Nat := ((coords.getD i default).shape).length

/-- Descriptor dimensionality outside every pattern the expansion pass
accepts: not 1-D, not fully `N`-D, and not the 2-D-in-3-D special case. -/
def BadDim (coords : List Arr) (i : Nat) : Prop :=
  arrND coords i ≠ 1 ∧ arrND coords i ≠ coords.length
  ∧ ¬ (coords.length = 3 ∧ arrND coords i = 2 ∧ 0 < i)

/-- The two unconditional patterns: a 1-D axis or a fully `N`-D array. -/
def SimpleGood (coords : List Arr) (i : Nat) : Prop :=
  arrND coords i = 1 ∨ arrND coords i = coords.length

/-- An accepted descriptor: a simple pattern, or the special 2-D descriptor
in a 3-D grid attributable to a single leading 1-D axis (with the product of
sizes consistent with the resolved grid, which is what the broadcast's
`reshape` requires). -/
def GoodPattern (coords : List Arr) (dims : List Nat) (i : Nat) : Prop :=
  SimpleGood coords i
  ∨ (coords.length = 3 ∧ arrND coords i = 2 ∧ 0 < i ∧ arrND coords 0 = 1
     ∧ (coords.getD 0 default).shape.getD 0 0 * (coords.getD i default).data.length
       = dims.prod)

theorem shape_eq_singleton (l : List Nat) (h : l.length = 1) : l = [l.getD 0 0] := by
  cases l with
  | nil => simp at h
  | cons a t =>
    cases t with
    | nil => simp
    | cons b t2 => simp at h

theorem prod_take_getD_drop (dims : List Nat) :
    ∀ i : Nat, i < dims.length →
      dims.prod = (dims.take i).prod * (dims.getD i 0 * (dims.drop (i + 1)).prod) := by
  induction dims with
  | nil =>
    intro i h
    simp at h
  | cons d ds ih =>
    intro i h
    cases i with
    | zero => simp
    | succ n =>
      have := ih n (by simpa using Nat.lt_of_succ_lt_succ h)
      simp only [List.take_succ_cons, List.drop_succ_cons, List.getD_cons_succ,
        List.prod_cons]
      rw [this]
      ring

theorem drop_eq_cons_elim (l : List Arr) :
    ∀ (i : Nat) (c : Arr) (t : List Arr), l.drop i = c :: t →
      l.getD i default = c ∧ i < l.length ∧ l.drop (i + 1) = t := by
  induction l with
  | nil =>
    intro i c t h
    simp at h
  | cons x xs ih =>
    intro i c t h
    cases i with
    | zero =>
      simp only [List.drop_zero] at h
      cases h
      exact ⟨rfl, by simp, by simp⟩
    | succ n =>
      simp only [List.drop_succ_cons] at h
      obtain ⟨h1, h2, h3⟩ := ih n c t h
      exact ⟨by simpa using h1, by simpa using Nat.succ_lt_succ h2, by simpa using h3⟩

theorem getTensorProduct_ok_of (c : Arr) (i : Nat) (dims : List Nat)
    (hwf : c.data.length = c.shape.prod) (hsh : c.shape.length = 1)
    (hdims : i < dims.length) (hval : dims.getD i 0 = c.shape.getD 0 0) :
    ∃ c2, getTensorProduct c i dims = .ok c2 ∧ c2.shape = dims := by
  refine ⟨⟨dims, (npOuter (npOuter (npOnes (dims.take i)) c)
      (npOnes (dims.drop (i + 1)))).data⟩, ?_, rfl⟩
  rw [getTensorProduct, npReshape, if_pos]
  show (outerData (outerData (onesData (dims.take i).prod) c.data)
      (onesData (dims.drop (i + 1)).prod)).length = dims.prod
  rw [outerData_length, outerData_length, onesData, onesData,
    List.length_replicate, List.length_replicate, hwf,
    shape_eq_singleton c.shape hsh, List.prod_singleton, ← hval,
    prod_take_getD_drop dims i hdims]
  ring

theorem computeDimsAux_axis_getD (ndims : Nat) (l : List Arr) :
    ∀ (i count : Nat) (ds : List Nat), computeDimsAux ndims l i count = .ok ds →
      ∀ j, j < l.length → (l.getD j default).shape.length = 1 →
        ds.getD j 0 = (l.getD j default).shape.getD 0 0 := by
  induction l with
  | nil =>
    intro i count ds h j hj
    simp at hj
  | cons c rest ih =>
    intro i count ds h j hj hsh
    rw [computeDimsAux] at h
    split at h
    case isTrue hc =>
      cases he : computeDimsAux ndims rest (i + 1) (count + 1) with
      | error e =>
        rw [he] at h
        simp [Except.map] at h
      | ok ds' =>
        rw [he] at h
        simp only [Except.map, Except.ok.injEq] at h
        rw [← h]
        cases j with
        | zero => simp
        | succ n =>
          simp only [List.getD_cons_succ]
          exact ih _ _ _ he n (by simpa using Nat.lt_of_succ_lt_succ hj)
            (by simpa using hsh)
    case isFalse hc =>
      have hbranch : ∀ (v : Nat) (ds' : List Nat),
          computeDimsAux ndims rest (i + 1) count = .ok ds' → ds = v :: ds' →
          ds.getD j 0 = (((c :: rest).getD j default)).shape.getD 0 0 := by
        intro v ds' he hds
        cases j with
        | zero =>
          exact absurd (by simpa using hsh) hc
        | succ n =>
          rw [hds]
          simp only [List.getD_cons_succ]
          exact ih _ _ _ he n (by simpa using Nat.lt_of_succ_lt_succ hj)
            (by simpa using hsh)
      split at h
      · cases he : computeDimsAux ndims rest (i + 1) count with
        | error e =>
          rw [he] at h
          simp [Except.map] at h
        | ok ds' =>
          rw [he] at h
          simp only [Except.map, Except.ok.injEq] at h
          exact hbranch _ _ he h.symm
      · split at h
        · cases he : computeDimsAux ndims rest (i + 1) count with
          | error e =>
            rw [he] at h
            simp [Except.map] at h
          | ok ds' =>
            rw [he] at h
            simp only [Except.map, Except.ok.injEq] at h
            exact hbranch _ _ he h.symm
        · exact absurd h (by simp)

/-- A successful expansion pass certifies that every descriptor matched one
of the three accepted branch conditions at its own position. -/
theorem curvAux_ok_pattern (ndims : Nat) (dims : List Nat) (rest : List Arr) :
    ∀ (done : List Arr) (i : Nat) (out : List Arr),
      curvAux ndims dims done rest i = .ok out →
      ∀ j, j < rest.length →
        (rest.getD j default).shape.length = ndims
        ∨ (rest.getD j default).shape.length = 1
        ∨ (ndims = 3 ∧ (rest.getD j default).shape.length = 2 ∧ 0 < i + j) := by
  induction rest with
  | nil =>
    intro done i out h j hj
    simp at hj
  | cons c rest ih =>
    intro done i out h j hj
    rw [curvAux] at h
    split at h
    case isTrue hc =>
      cases j with
      | zero => exact Or.inl (by simpa using hc)
      | succ n =>
        rcases ih _ _ _ h n (by simpa using Nat.lt_of_succ_lt_succ hj)
          with h1 | h1 | ⟨ha, hb, hc2⟩
        · exact Or.inl (by simpa using h1)
        · exact Or.inr (Or.inl (by simpa using h1))
        · exact Or.inr (Or.inr ⟨ha, by simpa using hb, by omega⟩)
    case isFalse =>
      split at h
      case isTrue hc1 =>
        cases hg : getTensorProduct c i dims with
        | error e =>
          rw [hg] at h
          exact absurd h (by simp)
        | ok c2 =>
          rw [hg] at h
          cases j with
          | zero => exact Or.inr (Or.inl (by simpa using hc1))
          | succ n =>
            rcases ih _ _ _ h n (by simpa using Nat.lt_of_succ_lt_succ hj)
              with h1 | h1 | ⟨ha, hb, hc2⟩
            · exact Or.inl (by simpa using h1)
            · exact Or.inr (Or.inl (by simpa using h1))
            · exact Or.inr (Or.inr ⟨ha, by simpa using hb, by omega⟩)
      case isFalse =>
        split at h
        case isTrue hc2 =>
          cases hg : npReshape (npOuter
              (npOnes [((done ++ c :: rest).getD 0 default).shape.getD 0 0]) c) dims with
          | error e =>
            rw [hg] at h
            exact absurd h (by simp)
          | ok c2 =>
            rw [hg] at h
            cases j with
            | zero =>
              exact Or.inr (Or.inr ⟨hc2.1, by simpa using hc2.2.1, by omega⟩)
            | succ n =>
              rcases ih _ _ _ h n (by simpa using Nat.lt_of_succ_lt_succ hj)
                with h1 | h1 | ⟨ha, hb, hc3⟩
              · exact Or.inl (by simpa using h1)
              · exact Or.inr (Or.inl (by simpa using h1))
              · exact Or.inr (Or.inr ⟨ha, by simpa using hb, by omega⟩)
        case isFalse =>
          exact absurd h (by simp)

/-- When every descriptor fits an accepted pattern (with the special 2-D
case attributable to a leading 1-D axis and size-consistent), the expansion
pass succeeds.  The invariant carried through the loop records that the
already-processed entry 0, when the original entry 0 was a 1-D axis in a
grid of at least two dimensions, now holds a full `dims`-shaped array (its
leading extent is what the special branch reads via `len(coords[0])`). -/
theorem curvAux_ok_of_good (coords : List Arr) (dims : List Nat)
    (wf : ∀ a ∈ coords, a.data.length = a.shape.prod)
    (hdlen : dims.length = coords.length)
    (axisv : ∀ j, j < coords.length → arrND coords j = 1 →
      dims.getD j 0 = (coords.getD j default).shape.getD 0 0)
    (good : ∀ j, j < coords.length → GoodPattern coords dims j) :
    ∀ (rest : List Arr) (i : Nat) (done : List Arr),
      rest = coords.drop i → done.length = i →
      (0 < i → arrND coords 0 = 1 → 2 ≤ coords.length →
        (done.getD 0 default).shape = dims) →
      ∃ out, curvAux coords.length dims done rest i = .ok out := by
  intro rest
  induction rest with
  | nil =>
    intro i done _ _ _
    exact ⟨done, by rw [curvAux]⟩
  | cons c rest ih =>
    intro i done hdrop hdone hinv
    obtain ⟨hc_eq, hi_lt, hdrop'⟩ := drop_eq_cons_elim coords i c rest hdrop.symm
    have hcmem : c ∈ coords := by
      rw [← hc_eq, List.getD_eq_getElem _ _ hi_lt]
      exact List.getElem_mem hi_lt
    rcases good i hi_lt with hs | hspec
    · rcases hs with hax | hfull
      · have hcsh : c.shape.length = 1 := by
          rw [show c = coords.getD i default from hc_eq.symm]
          exact hax
        by_cases hnd : coords.length = 1
        · rw [curvAux, if_pos (by rw [hcsh, hnd])]
          apply ih (i + 1) (done ++ [c]) hdrop'.symm (by simp [hdone])
          intro _ _ h2
          omega
        · rw [curvAux, if_neg (by rw [hcsh]; omega), if_pos hcsh]
          have hval : dims.getD i 0 = c.shape.getD 0 0 := by
            rw [show c = coords.getD i default from hc_eq.symm]
            exact axisv i hi_lt hax
          obtain ⟨c2, hg, hc2⟩ :=
            getTensorProduct_ok_of c i dims (wf c hcmem) hcsh (by omega) hval
          rw [hg]
          apply ih (i + 1) (done ++ [c2]) hdrop'.symm (by simp [hdone])
          intro _ h01 hlen2
          by_cases hi0 : i = 0
          · subst hi0
            rw [List.length_eq_zero.mp hdone]
            simpa using hc2
          · rw [List.getD_append _ _ _ _ (by omega)]
            exact hinv (by omega) h01 hlen2
      · have hcsh : c.shape.length = coords.length := by
          rw [show c = coords.getD i default from hc_eq.symm]
          exact hfull
        rw [curvAux, if_pos hcsh]
        apply ih (i + 1) (done ++ [c]) hdrop'.symm (by simp [hdone])
        intro _ h01 hlen2
        by_cases hi0 : i = 0
        · exfalso
          have hful0 : arrND coords 0 = coords.length := hi0 ▸ hfull
          omega
        · rw [List.getD_append _ _ _ _ (by omega)]
          exact hinv (by omega) h01 hlen2
    · obtain ⟨h3, h2, hipos, h01, hsz⟩ := hspec
      have hcsh2 : c.shape.length = 2 := by
        rw [show c = coords.getD i default from hc_eq.symm]
        exact h2
      rw [curvAux, if_neg (by rw [hcsh2, h3]; omega), if_neg (by rw [hcsh2]; omega),
        if_pos ⟨h3, hcsh2, hipos⟩]
      have hdone0 : (done ++ c :: rest).getD 0 default = done.getD 0 default :=
        List.getD_append _ _ _ _ (by omega)
      have hshape0 : (done.getD 0 default).shape = dims := hinv hipos h01 (by omega)
      have hlen0 : ((done ++ c :: rest).getD 0 default).shape.getD 0 0
          = (coords.getD 0 default).shape.getD 0 0 := by
        rw [hdone0, hshape0]
        exact axisv 0 (by omega) h01
      have hresh : npReshape (npOuter
          (npOnes [((done ++ c :: rest).getD 0 default).shape.getD 0 0]) c) dims
          = .ok ⟨dims, (npOuter
            (npOnes [((done ++ c :: rest).getD 0 default).shape.getD 0 0]) c).data⟩ := by
        rw [npReshape, if_pos]
        show (outerData (onesData
            (List.prod [((done ++ c :: rest).getD 0 default).shape.getD 0 0]))
            c.data).length = dims.prod
        rw [outerData_length, onesData, List.length_replicate, List.prod_singleton,
          hlen0, show c = coords.getD i default from hc_eq.symm]
        exact hsz
      obtain ⟨out, hout⟩ := ih (i + 1) (done ++ [⟨dims, (npOuter
          (npOnes [((done ++ c :: rest).getD 0 default).shape.getD 0 0]) c).data⟩])
        hdrop'.symm (by simp [hdone])
        (by
          intro _ h01b hlen2
          rw [List.getD_append _ _ _ _ (by omega)]
          exact hinv hipos h01b hlen2)
      refine ⟨out, ?_⟩
      rw [hresh]
      exact hout

/-- When the first offending descriptor (everything before it being a plain
axis or a full `N`-D array) has a dimensionality outside every accepted
pattern, the expansion pass reaches it and raises the `funky mixture`
`CDMSError` (spec: `ShapeMismatch`). -/
theorem curvAux_funky (coords : List Arr) (dims : List Nat)
    (wf : ∀ a ∈ coords, a.data.length = a.shape.prod)
    (hdlen : dims.length = coords.length)
    (axisv : ∀ j, j < coords.length → arrND coords j = 1 →
      dims.getD j 0 = (coords.getD j default).shape.getD 0 0)
    (target : Nat) (htarget : target < coords.length)
    (hbad : BadDim coords target)
    (hpref : ∀ j, j < target → SimpleGood coords j) :
    ∀ (rest : List Arr) (i : Nat) (done : List Arr),
      rest = coords.drop i → done.length = i → i ≤ target →
      curvAux coords.length dims done rest i = .error .cdmsFunkyMix := by
  intro rest
  induction rest with
  | nil =>
    intro i done hdrop _ hle
    exfalso
    have hlen : coords.length - i = 0 := by
      rw [← List.length_drop, ← hdrop]
      rfl
    omega
  | cons c rest ih =>
    intro i done hdrop hdone hle
    obtain ⟨hc_eq, hi_lt, hdrop'⟩ := drop_eq_cons_elim coords i c rest hdrop.symm
    have hcmem : c ∈ coords := by
      rw [← hc_eq, List.getD_eq_getElem _ _ hi_lt]
      exact List.getElem_mem hi_lt
    have hnd_c : c.shape.length = arrND coords i := by
      rw [arrND, hc_eq]
    by_cases hit : i = target
    · subst hit
      obtain ⟨hb1, hb2, hb3⟩ := hbad
      rw [curvAux, if_neg (by rw [hnd_c]; exact hb2), if_neg (by rw [hnd_c]; exact hb1),
        if_neg (by rw [hnd_c]; exact hb3)]
    · have hlt : i < target := by omega
      rcases hpref i hlt with hax | hfull
      · have hcsh : c.shape.length = 1 := by rw [hnd_c]; exact hax
        by_cases hnd1 : coords.length = 1
        · omega
        · rw [curvAux, if_neg (by rw [hcsh]; omega), if_pos hcsh]
          have hval : dims.getD i 0 = c.shape.getD 0 0 := by
            rw [show c = coords.getD i default from hc_eq.symm]
            exact axisv i hi_lt hax
          obtain ⟨c2, hg, -⟩ :=
            getTensorProduct_ok_of c i dims (wf c hcmem) hcsh (by omega) hval
          rw [hg]
          exact ih (i + 1) (done ++ [c2]) hdrop'.symm (by simp [hdone]) (by omega)
      · have hcsh : c.shape.length = coords.length := by rw [hnd_c]; exact hfull
        rw [curvAux, if_pos hcsh]
        exact ih (i + 1) (done ++ [c]) hdrop'.symm (by simp [hdone]) (by omega)

/-- Claim C5 amended: descriptors are resolved exactly by the three patterns
{1-D axis, fully N-D, 2-D-in-3-D attributable to a single leading 1-D axis}:
(a) if every descriptor fits a pattern (the special case being attributable
and size-consistent), normalization succeeds; (b) an input containing a
descriptor dimensionality outside the patterns is never accepted; and (c)
when the size-resolution pass completes and everything before the offending
descriptor is a plain axis or fully N-D, the rejection is the `ShapeMismatch`
`CDMSError` — but (see the counterexample) inputs on which the
size-resolution pass itself fails are rejected with `IndexError` instead,
so rejection is not always `ShapeMismatch` as the claim states. -/
theorem spec_c5_amended (coords : List Arr)
    (wf : ∀ a ∈ coords, a.data.length = a.shape.prod) :
    (∀ dims, computeDimsAux coords.length coords 0 0 = .ok dims →
      (∀ i, i < coords.length → GoodPattern coords dims i) →
      ∃ out, makeCurvilinear coords = .ok (out, dims))
    ∧ (∀ i, i < coords.length → BadDim coords i →
        ∀ r, makeCurvilinear coords ≠ .ok r)
    ∧ (∀ dims, computeDimsAux coords.length coords 0 0 = .ok dims →
        ∀ i, i < coords.length → BadDim coords i →
        (∀ j, j < i → SimpleGood coords j) →
        makeCurvilinear coords = .error PyError.cdmsFunkyMix) := by
  refine ⟨?_, ?_, ?_⟩
  · intro dims hdims good
    have hdlen := computeDimsAux_length _ _ _ _ _ hdims
    have axisv := computeDimsAux_axis_getD _ _ _ _ _ hdims
    obtain ⟨out, hout⟩ := curvAux_ok_of_good coords dims wf hdlen axisv good coords 0 []
      (by simp) rfl (by omega)
    exact ⟨out, makeCurvilinear_ok_intro _ _ _ hdims hout⟩
  · rintro i hi hbad ⟨out, dims⟩ hok
    obtain ⟨hdims, hcurv⟩ := makeCurvilinear_ok_elim _ _ _ hok
    obtain ⟨hb1, hb2, hb3⟩ := hbad
    rcases curvAux_ok_pattern _ _ coords [] 0 out hcurv i hi with h | h | ⟨ha, hb, hc⟩
    · exact hb2 h
    · exact hb1 h
    · exact hb3 ⟨ha, hb, by omega⟩
  · intro dims hdims i hi hbad hpref
    have hdlen := computeDimsAux_length _ _ _ _ _ hdims
    have axisv := computeDimsAux_axis_getD _ _ _ _ _ hdims
    have hfunky := curvAux_funky coords dims wf hdlen axisv i hi hbad hpref coords 0 []
      (by simp) rfl (by omega)
    rw [makeCurvilinear]
    simp [hdims, hfunky, bind, Except.bind]

/-- Claim C5 amended, witness: two 1-D axes are an accepted pattern and
normalize successfully. -/
theorem spec_c5_witness :
    ∃ out, makeCurvilinear [⟨[2], [1, 2]⟩, ⟨[4], [4, 5, 6, 7]⟩] = .ok (out, [2, 4]) :=
  (spec_c5_amended [⟨[2], [1, 2]⟩, ⟨[4], [4, 5, 6, 7]⟩] (by decide)).1 [2, 4]
    (by decide)
    (by
      intro i hi
      have h2 : i < 2 := by simpa using hi
      exact Or.inl (Or.inl (by interval_cases i <;> decide)))

end GsRegrid
